import Mathlib

/-!
Verification development for the ddice Dimension/Variable/Field layer.

The definitions below are shallow embeddings of the Python source in
`src/ddice/variable/variable.py` and `src/ddice/field/field.py`.  Machine
integers are modelled as `Int`/`Nat` (Python ints are unbounded), fallible
code returns `Except String`, and numpy arrays are modelled as flat lists
together with their shapes.  The Storage capability (package `ddice.array`,
which is not part of the sources) is modelled from the spec where needed,
as noted on the individual definitions.
-/

namespace DDice

/-- Model of a Python value passed as the `size` argument of the
`Dimension.size` setter: either an object with `type(size) == int`, or any
other object (float, bool, str, ...), for which `type(size) == int` is false. -/
inductive SizeArg
  | int (n : Int)
  | other
deriving DecidableEq

/-- Model of a Python value passed as the `fixed` argument of
`Dimension.__init__`: either an object with `type(fixed) == bool`, or any
other object. -/
inductive FixedArg
  | bool (b : Bool)
  | other
deriving DecidableEq

/-- A ddice Dimension: a name, a stored size and the fixed flag
(variable.py, class `Dimension`).  The stored size is an `Int` because the
constructor stores the size argument without validation. -/
structure Dimension where
  name : String
  size : Int
  fixed : Bool
deriving DecidableEq

/-- Embedding of `Dimension.__init__` (variable.py lines 19-41): `name` and
`_size` are stored unconditionally, then `type(fixed) == bool` is checked and
a `TypeError` is raised otherwise.  The size argument is never validated. -/
def Dimension.mkChecked (name : String) (size : Int) (fixed : FixedArg) :
    Except String Dimension :=
  match fixed with
  | .bool b => .ok (Dimension.mk name size b)
  | .other => .error "unlimited must be boolean, True or False"

/-- Embedding of the `Dimension.size` setter (variable.py lines 57-71): a
`ValueError` is raised when the dimension is fixed; otherwise the new size
must satisfy `size >= 0 and type(size) == int`, and a `TypeError` is raised
otherwise. -/
def Dimension.setSize (d : Dimension) (s : SizeArg) : Except String Dimension :=
  if d.fixed then
    .error "cannot change the size of fixed dimension"
  else
    match s with
    | .int n =>
        if 0 ≤ n then .ok (Dimension.mk d.name n d.fixed)
        else .error "size must be positive int"
    | .other => .error "size must be positive int"

/-- Claim C5: on a fixed Dimension, setting the size always fails (and the
dimension is untouched, as the setter raises before assigning); on a
non-fixed Dimension, setting the size to a non-negative integer always
succeeds and stores exactly that size, while any argument that is not a
non-negative integer fails. -/
theorem setSize_spec :
    (∀ (d : Dimension) (s : SizeArg), d.fixed = true → (d.setSize s).isOk = false) ∧
    (∀ (d : Dimension) (n : Int), d.fixed = false → 0 ≤ n →
      d.setSize (.int n) = .ok (Dimension.mk d.name n d.fixed)) ∧
    (∀ (d : Dimension) (s : SizeArg), d.fixed = false →
      (∀ n : Int, s = .int n → n < 0) → (d.setSize s).isOk = false) := by
  refine ⟨?_, ?_, ?_⟩
  · intro d s hfix
    simp [Dimension.setSize, hfix, Except.isOk, Except.toBool]
  · intro d n hfix hn
    simp [Dimension.setSize, hfix, hn]
  · intro d s hfix hneg
    cases s with
    | int n =>
        have h := hneg n rfl
        simp [Dimension.setSize, hfix, Except.isOk, Except.toBool, not_le.mpr h]
    | other =>
        simp [Dimension.setSize, hfix, Except.isOk, Except.toBool]

/-- Witness for C5: the three parts of `setSize_spec` evaluated on concrete
dimensions. -/
theorem setSize_spec_witness :
    ((Dimension.mk "t" 5 true).setSize (.int 3)).isOk = false ∧
    (Dimension.mk "t" 5 false).setSize (.int 7) = .ok (Dimension.mk "t" 7 false) ∧
    ((Dimension.mk "t" 5 false).setSize (.int (-2))).isOk = false :=
  ⟨setSize_spec.1 (Dimension.mk "t" 5 true) (.int 3) rfl,
   setSize_spec.2.1 (Dimension.mk "t" 5 false) 7 rfl (by decide),
   setSize_spec.2.2 (Dimension.mk "t" 5 false) (.int (-2)) rfl
     (by intro n hn; cases hn; decide)⟩

/-- Counterexample for C6: the claim states that constructing a Dimension
fails whenever the size argument is negative, but `Dimension.__init__` never
validates the size: constructing with size `-5` and a boolean fixed argument
succeeds. -/
theorem mkChecked_negative_size_succeeds :
    (Dimension.mkChecked "x" (-5) (.bool true)).isOk = true := by decide

/-- Claim C6 (amended): constructing a Dimension fails exactly when the
`fixed` argument is not a boolean; the size argument is stored without any
validation, so a negative size is accepted. -/
theorem mkChecked_spec :
    (∀ (name : String) (size : Int) (b : Bool),
      Dimension.mkChecked name size (.bool b) = .ok (Dimension.mk name size b)) ∧
    (∀ (name : String) (size : Int),
      (Dimension.mkChecked name size .other).isOk = false) := by
  exact ⟨fun name size b => rfl, fun name size => rfl⟩

/-! Embedding of `Field.subset` (field.py lines 270-383).  Coordinate values
are modelled as integer lists (every claim instance is numeric); a numpy
array is a flat list plus a shape. -/

/-- A per-dimension index specification as stored by `subset` and `groupby`:
`slice(None)`, a `slice(start, stop)` or an explicit index list. -/
inductive ISpec
  | all
  | islice (start stop : Int)
  | ilist (idxs : List Int)
deriving DecidableEq

/-- Product of a shape, as `numpy` would compute the flat length. -/
def prodL (l : List Nat) : Nat := l.foldl (fun a b => a * b) 1

/-- Embedding of `np.unravel_index` for a C-ordered shape: peel off one axis
at a time, dividing by the product of the remaining axes. -/
def unravel : List Nat → Nat → List Nat
  | [], _ => []
  | _ :: rest, i => i / prodL rest :: unravel rest (i % prodL rest)

/-- The exclusion mask `subset` builds for one keyword (field.py lines
319-323): `mask = vals < value[0]`, and only when both `len(mask) > 1` and
`len(value) > 1` is it extended with `vals > value[1]`. -/
def subsetMask (vals : List Int) (value : List Int) : List Bool :=
  let mask := vals.map (fun x => decide (x < value.headD 0))
  if 1 < mask.length ∧ 1 < value.length then
    List.zipWith (fun m x => m || decide (value.getD 1 0 < x)) mask vals
  else mask

/-- The data Variable and its recognized mappings, as `subset` consumes
them: the data shape, plus coordinate and ancillary variables given by the
dimension-index tuple into the data Variable and the flat coordinate
values. -/
structure FieldS where
  shape : List Nat
  coords : List (String × (List Nat × List Int))
  ancils : List (String × (List Nat × List Int))
deriving DecidableEq

/-- Lookup of a keyword among the coordinate variables (`name in
self.coordinate_variables`). -/
def findCoordS (f : FieldS) (n : String) : Option (List Nat × List Int) :=
  (f.coords.find? (fun p => p.1 = n)).map (fun p => p.2)

/-- Lookup of a keyword among the ancillary variables. -/
def findAncilS (f : FieldS) (n : String) : Option (List Nat × List Int) :=
  (f.ancils.find? (fun p => p.1 = n)).map (fun p => p.2)

/-- Lookup in the `mappings` dictionary keyed by the dimension tuple. -/
def lookupMapping (ms : List (List Nat × List Bool)) (dims : List Nat) :
    Option (List Bool) :=
  (ms.find? (fun p => p.1 = dims)).map (fun p => p.2)

/-- In-place update of the `mappings` dictionary at an existing key. -/
def setMapping (ms : List (List Nat × List Bool)) (dims : List Nat)
    (mask : List Bool) : List (List Nat × List Bool) :=
  ms.map (fun p => if p.1 = dims then (p.1, mask) else p)

/-- One iteration of the keyword loop of `subset` (field.py lines 299-333):
a keyword naming neither a coordinate nor an ancillary variable is skipped;
otherwise its exclusion mask is combined by logical OR into the mask already
held for the same dimension tuple.  A single value has already been wrapped
into a 1-tuple, so the value list is nonempty. -/
def subsetStep (f : FieldS) (mappings : List (List Nat × List Bool))
    (item : String × List Int) : List (List Nat × List Bool) :=
  match findCoordS f item.1 <|> findAncilS f item.1 with
  | none => mappings
  | some (dims, vals) =>
      let mask := subsetMask vals item.2
      match lookupMapping mappings dims with
      | some old => setMapping mappings dims (List.zipWith (fun a b => a || b) old mask)
      | none => mappings ++ [(dims, mask)]

/-- The `mappings` dictionary built by the keyword loop of `subset`. -/
def subsetMappings (f : FieldS) (kwargs : List (String × List Int)) :
    List (List Nat × List Bool) :=
  kwargs.foldl (subsetStep f) []

/-- Embedding of `np.nonzero(~mask)` over an array of the given shape: one
ascending index list per axis, giving that axis coordinate of every
non-excluded cell in C order. -/
def nonzeroAxes (shape : List Nat) (mask : List Bool) : List (List Nat) :=
  let flat := (List.range mask.length).filter (fun j => !(mask.getD j true))
  (List.range shape.length).map (fun i => flat.map (fun j => (unravel shape j).getD i 0))

/-- The spec-rewriting loop of `subset` (field.py lines 336-353): the
default is the full slice `slice(0, size)` per data dimension; for each
mapping, per axis of the nonzero result, `start`/`stop` are the min and max
indices; a one-dimensional mapping is replaced by the explicit index list
only when `stop - start + 1 > len(nonzero[0])` (a sparse selection), and is
otherwise left at the default; a multi-dimensional mapping always gets
`slice(start, stop + 1)`.  `np.min` of an empty selection raises. -/
def subsetApplyMappings (shape : List Nat)
    (mappings : List (List Nat × List Bool)) : Except String (List ISpec) :=
  mappings.foldlM
    (fun acc m =>
      let dims := m.1
      let cshape := dims.map (fun d => shape.getD d 0)
      let nz := nonzeroAxes cshape m.2
      (List.range nz.length).foldlM
        (fun acc2 i =>
          match nz.getD i [] with
          | [] => .error "zero-size array to reduction operation minimum"
          | j :: rest =>
              let start := (j :: rest).foldl min j
              let stop := (j :: rest).foldl max j
              if nz.length = 1 then
                if stop - start + 1 > (j :: rest).length then
                  .ok (acc2.set (dims.getD i 0) (ISpec.ilist ((j :: rest).map Int.ofNat)))
                else .ok acc2
              else .ok (acc2.set (dims.getD i 0) (ISpec.islice start (stop + 1))))
        acc)
    (shape.map (fun sz => ISpec.islice 0 (sz : Int)))

/-- The full per-dimension specification `subset` computes before slicing
the data Variable. -/
def subsetRun (f : FieldS) (kwargs : List (String × List Int)) :
    Except String (List ISpec) :=
  subsetApplyMappings f.shape (subsetMappings f kwargs)

/-- Claim C10: when the coordinate value array of a recognized keyword has
exactly one element, the exclusion mask is `value < low` alone; the upper
bound of a supplied `(low, high)` tuple is never applied, because the
upper-bound branch requires the mask length to exceed 1. -/
theorem subsetMask_singleton (vals : List Int) (value : List Int)
    (h : vals.length = 1) :
    subsetMask vals value = vals.map (fun x => decide (x < value.headD 0)) := by
  simp [subsetMask, h]

/-- Witness for C10: a one-element coordinate array with a two-sided bound
keeps only the lower-bound exclusion. -/
theorem subsetMask_singleton_witness :
    subsetMask [5] [1, 3] = [decide ((5 : Int) < 1)] :=
  subsetMask_singleton [5] [1, 3] rfl

/-- The latitude coordinate of concrete scenario 3 of the spec:
monotonically increasing from -40 to 0 in 1-degree steps (41 entries). -/
def scenarioLatitude : List Int := (List.range 41).map (fun i => (i : Int) - 40)

/-- A Field for scenario 3: one data dimension of size 41 carrying the
latitude coordinate. -/
def scenarioField : FieldS :=
  FieldS.mk [41] [("latitude", ([0], scenarioLatitude))] []

/-- Claim C2 evaluated on the code: `subset(latitude=(-30,-20))` on the
scenario-3 field.  The non-excluded index set is the contiguous range
10..20, so `stop - start + 1 = 11 = len(nonzero)` and the sparse branch does
not fire; but the one-dimensional branch assigns nothing in that case, so
the specification stays at the default full slice `slice(0, 41)` instead of
the claimed `slice(10, 21)`. -/
theorem subset_scenario3_keeps_full_dimension :
    subsetRun scenarioField [("latitude", [-30, -20])] = .ok [ISpec.islice 0 41] ∧
    ISpec.islice 0 41 ≠ ISpec.islice 10 21 := ⟨by rfl, by decide⟩

/-! Embedding of the distance accumulation loop of `Field.map` (field.py
lines 242-257). -/

/-- A Python value supplied as a keyword argument to `map`: numeric (any
value `float(...)` accepts, which is how the source distinguishes the two
branches) or non-numeric. -/
inductive PyVal
  | num (x : Int)
  | str (s : String)
deriving DecidableEq

/-- The flat values of a coordinate or ancillary variable: a numeric array
or an array of strings (identifiers, station names, ...). -/
inductive CoordVals
  | nums (xs : List Int)
  | strs (ss : List String)
deriving DecidableEq

/-- Elementwise numpy comparison `values != supplied`, cast to int: 1 where
unequal and 0 where equal; values of different kinds always compare
unequal. -/
def neqIndicator : CoordVals → PyVal → List Int
  | .nums xs, .num v => xs.map (fun x => if x = v then 0 else 1)
  | .nums xs, .str _ => xs.map (fun _ => 1)
  | .strs ss, .str v => ss.map (fun s => if s = v then 0 else 1)
  | .strs ss, .num _ => ss.map (fun _ => 1)

/-- One iteration of the distance loop of `map` (field.py lines 245-254):
for a numeric coordinate with a numeric supplied value the code runs
`distance += np.power(values - float(supplied), 2)`; in every other case the
subtraction (or the float conversion) raises and the fallback ASSIGNS
`distance = (values != supplied).astype(int)`, overwriting whatever was
accumulated so far. -/
def distStep (dist : List Int) : CoordVals × PyVal → List Int
  | (.nums xs, .num v) => List.zipWith (fun d x => d + (x - v) ^ 2) dist xs
  | (vals, v) => neqIndicator vals v

/-- The reading of the loop that claim C3 states: the non-numeric 0/1 term
is combined ADDITIVELY with the distances already accumulated. -/
def distStepSpecAdd (dist : List Int) : CoordVals × PyVal → List Int
  | (.nums xs, .num v) => List.zipWith (fun d x => d + (x - v) ^ 2) dist xs
  | (vals, v) => List.zipWith (fun a b => a + b) dist (neqIndicator vals v)

/-- Is the argument pair handled by the numeric branch of the loop? -/
def numericCase : CoordVals → PyVal → Bool
  | .nums _, .num _ => true
  | _, _ => false

/-- Concrete mixed criteria sharing one mapping: first a numeric coordinate
with values `[0, 10]` matched against `0`, then a string coordinate with
values `["x", "y"]` matched against `"y"`. -/
def mixedArgs : List (CoordVals × PyVal) :=
  [(.nums [0, 10], .num 0), (.strs ["x", "y"], .str "y")]

/-- Counterexample for C3: on `mixedArgs` the code produces the bare
inequality indicator `[1, 0]` (the numeric distances `[0, 100]` are
discarded by the assignment), while the additive combination the claim
describes would give `[1, 100]`; the two disagree, and even the argmin cell
differs. -/
theorem map_distance_not_additive :
    List.foldl distStep (List.replicate 2 0) mixedArgs = [1, 0] ∧
    List.foldl distStepSpecAdd (List.replicate 2 0) mixedArgs = [1, 100] ∧
    ([1, 0] : List Int) ≠ [1, 100] := by decide

/-- Claim C3 (amended): numeric coordinates accumulate their squared
difference into the running distance array, but a criterion that falls into
the non-numeric branch REPLACES the running distance with its own 0/1
inequality indicator, discarding every distance accumulated before it for
that shape; the square root and argmin are taken afterwards. -/
theorem map_distance_overwrite (d : List Int) (xs : List (CoordVals × PyVal))
    (vals : CoordVals) (v : PyVal) :
    (∀ (cs : List Int) (c : Int), vals = .nums cs → v = .num c →
      List.foldl distStep d (xs ++ [(vals, v)]) =
        List.zipWith (fun a x => a + (x - c) ^ 2) (List.foldl distStep d xs) cs) ∧
    (numericCase vals v = false →
      List.foldl distStep d (xs ++ [(vals, v)]) = neqIndicator vals v) := by
  constructor
  · intro cs c hv hc
    subst hv; subst hc
    simp [List.foldl_append, distStep]
  · intro hnc
    rw [List.foldl_append]
    cases vals with
    | nums xs2 =>
        cases v with
        | num c => simp [numericCase] at hnc
        | str s => simp [distStep]
    | strs ss =>
        cases v with
        | num c => simp [distStep]
        | str s => simp [distStep]

/-- Witness for C3 (amended): both branches of `map_distance_overwrite`
evaluated on concrete input. -/
theorem map_distance_overwrite_witness :
    List.foldl distStep [0, 0] [(CoordVals.strs ["x", "y"], PyVal.str "y"),
        (CoordVals.nums [0, 10], PyVal.num 0)] =
      List.zipWith (fun a x => a + (x - 0) ^ 2)
        (List.foldl distStep [0, 0] [(CoordVals.strs ["x", "y"], PyVal.str "y")]) [0, 10] ∧
    List.foldl distStep [0, 0] mixedArgs =
      neqIndicator (CoordVals.strs ["x", "y"]) (PyVal.str "y") :=
  ⟨(map_distance_overwrite [0, 0] [(CoordVals.strs ["x", "y"], PyVal.str "y")]
      (CoordVals.nums [0, 10]) (PyVal.num 0)).1 [0, 10] 0 rfl rfl,
   (map_distance_overwrite [0, 0] [(CoordVals.nums [0, 10], PyVal.num 0)]
      (CoordVals.strs ["x", "y"]) (PyVal.str "y")).2 rfl⟩

/-! Embedding of the grouped-coordinate write of `Field.apply` (field.py
lines 763-784). -/

/-- The entry a GroupBy stores for the grouped data dimension: a
`slice(start, stop)` or an explicit index list. -/
inductive GroupIdx
  | gslice (start stop : Nat)
  | glist (idxs : List Nat)
deriving DecidableEq

/-- The grouped-coordinate value `apply` writes for one group (field.py
lines 774-779): for a slice it reads `coordinate_variable[group.stop - 1]`;
for an index list it reads `coordinate_variable[group][-1]`, the coordinate
value at the last listed index.  An out-of-range read yields `none`
(numpy raises there). -/
def applyGroupCoordValue (coordVals : List Int) : GroupIdx → Option Int
  | .gslice _ stop => coordVals.get? (stop - 1)
  | .glist idxs => idxs.getLast? >>= fun j => coordVals.get? j

/-- The new grouped-coordinate variable built by the group loop of `apply`:
one value per group, in group insertion order. -/
def applyGroupCoords (coordVals : List Int) (groups : List GroupIdx) :
    List (Option Int) :=
  groups.map (applyGroupCoordValue coordVals)

/-- The original coordinate index range a stored group denotes: for
`slice(start, stop)` the ascending run start, ..., stop - 1; for an index
list the listed indices in order. -/
def groupIndexRange : GroupIdx → List Nat
  | .gslice start stop => List.range' start (stop - start)
  | .glist idxs => idxs

theorem getLast?_range' (a : Nat) : ∀ n : Nat, 0 < n →
    (List.range' a n).getLast? = some (a + n - 1) := by
  intro n
  induction n generalizing a with
  | zero => intro h; exact absurd h (by decide)
  | succ m ih =>
      intro _
      cases hm : m with
      | zero => simp [List.range'_succ]
      | succ k =>
          subst hm
          rw [List.range'_succ, List.range'_succ, List.getLast?_cons_cons,
            ← List.range'_succ]
          rw [ih (a + 1) (by omega)]
          congr 1
          omega

/-- Claim C1: the grouped-coordinate output value at group index i equals
the last original coordinate value inside the index range of group i: for a
slice the value at index stop - 1, for an explicit index list the value at
the last listed index. -/
theorem apply_groupCoord_last (coordVals : List Int) (groups : List GroupIdx)
    (i : Nat) (g : GroupIdx) (hg : groups.get? i = some g)
    (j : Nat) (hj : (groupIndexRange g).getLast? = some j)
    (v : Int) (hv : coordVals.get? j = some v) :
    (applyGroupCoords coordVals groups).get? i = some (some v) := by
  have hval : applyGroupCoordValue coordVals g = some v := by
    cases g with
    | gslice a b =>
        have hpos : 0 < b - a := by
          by_contra hz
          have : b - a = 0 := by omega
          simp [groupIndexRange, this] at hj
        rw [groupIndexRange, getLast?_range' a (b - a) hpos] at hj
        have hjv : j = b - 1 := by
          have := Option.some.inj hj
          omega
        rw [applyGroupCoordValue]
        rw [show b - 1 = j from hjv.symm]
        exact hv
    | glist idxs =>
        rw [groupIndexRange] at hj
        rw [applyGroupCoordValue, hj]
        exact hv
  rw [applyGroupCoords, List.get?_eq_getElem?, List.getElem?_map,
    ← List.get?_eq_getElem?, hg]
  simp [hval]

/-- Witness for C1: a slice group and a list group over the coordinate
values [10, 20, 30, 40]. -/
theorem apply_groupCoord_last_witness :
    (applyGroupCoords [10, 20, 30, 40] [GroupIdx.gslice 0 2, GroupIdx.glist [2, 3]]).get? 0 =
      some (some 20) ∧
    (applyGroupCoords [10, 20, 30, 40] [GroupIdx.gslice 0 2, GroupIdx.glist [2, 3]]).get? 1 =
      some (some 40) :=
  ⟨apply_groupCoord_last [10, 20, 30, 40] [GroupIdx.gslice 0 2, GroupIdx.glist [2, 3]]
      0 (GroupIdx.gslice 0 2) rfl 1 (by decide) 20 rfl,
   apply_groupCoord_last [10, 20, 30, 40] [GroupIdx.gslice 0 2, GroupIdx.glist [2, 3]]
      1 (GroupIdx.glist [2, 3]) rfl 3 (by decide) 40 rfl⟩

/-! Embedding of `Variable.__getitem__` (variable.py lines 214-224). -/

/-- One item of a Python extended slice specification, as accepted by the
Storage capability. -/
inductive SliceItem
  | full
  | range (a b : Nat)
  | index (i : Nat)
  | list (l : List Nat)
deriving DecidableEq

/-- Modelled from the spec: the extent one slice item leaves on an axis of
the given size.  The Storage capability (`ddice.array`, not under src/) is
specified only by its interface; per the spec on `Variable.get`entry points
and the `Variable` doctest (`V[2,1]` yields dimensions `[(x,1),(y,1)]`), an
integer index collapses the axis to size 1, a range is clipped to the axis
extent, and an index list selects its listed entries. -/
def sliceExtent (size : Nat) : SliceItem → Nat
  | .full => size
  | .range a b => min b size - min a size
  | .index _ => 1
  | .list l => l.length

/-- Modelled from the spec: the shape of `storage.get(sliceSpec)` is the
per-axis extent of the slice specification. -/
def storageGetShape (shape : List Nat) (s : List SliceItem) : List Nat :=
  List.zipWith sliceExtent shape s

/-- A ddice Variable, reduced to what slicing observes: the ordered
dimensions and the storage shape. -/
structure Variable where
  dims : List Dimension
  storageShape : List Nat
deriving DecidableEq

/-- `Variable.shape`: derived from storage when storage exists, which it
always does after construction. -/
def Variable.shape (v : Variable) : List Nat := v.storageShape

/-- Embedding of `Variable.__getitem__`: the storage is sliced, one
Dimension per output axis is rebuilt from the zip of the old dimensions
with the sliced data shape (name and fixed flag preserved, size taken from
the post-slice extent), and the constructor re-checks that the declared
dimension sizes agree with the supplied data shape, raising otherwise. -/
def Variable.getItem (v : Variable) (s : List SliceItem) : Except String Variable :=
  let newShape := storageGetShape v.storageShape s
  let dims := (v.dims.zip newShape).map
    (fun p => Dimension.mk p.1.name (Int.ofNat p.2) p.1.fixed)
  if dims.map Dimension.size = newShape.map Int.ofNat then .ok (Variable.mk dims newShape)
  else .error "supplied data Array has mismatched shape"

theorem rebuildDims_sizes (ds : List Dimension) (ns : List Nat)
    (h : ds.length = ns.length) :
    ((ds.zip ns).map (fun p => Dimension.mk p.1.name (Int.ofNat p.2) p.1.fixed)).map
        Dimension.size = ns.map Int.ofNat := by
  induction ds generalizing ns with
  | nil =>
      cases ns with
      | nil => rfl
      | cons b bs => simp at h
  | cons a as ih =>
      cases ns with
      | nil => simp at h
      | cons b bs =>
          simp only [List.zip_cons_cons, List.map_cons]
          rw [ih bs (by simpa using h)]

theorem rebuildDims_names (ds : List Dimension) (ns : List Nat)
    (h : ds.length = ns.length) :
    ((ds.zip ns).map (fun p => Dimension.mk p.1.name (Int.ofNat p.2) p.1.fixed)).map
        Dimension.name = ds.map Dimension.name := by
  induction ds generalizing ns with
  | nil => rfl
  | cons a as ih =>
      cases ns with
      | nil => simp at h
      | cons b bs =>
          simp only [List.zip_cons_cons, List.map_cons]
          rw [ih bs (by simpa using h)]

theorem rebuildDims_fixed (ds : List Dimension) (ns : List Nat)
    (h : ds.length = ns.length) :
    ((ds.zip ns).map (fun p => Dimension.mk p.1.name (Int.ofNat p.2) p.1.fixed)).map
        Dimension.fixed = ds.map Dimension.fixed := by
  induction ds generalizing ns with
  | nil => rfl
  | cons a as ih =>
      cases ns with
      | nil => simp at h
      | cons b bs =>
          simp only [List.zip_cons_cons, List.map_cons]
          rw [ih bs (by simpa using h)]

theorem zipWith_sliceExtent_full (shape : List Nat) :
    storageGetShape shape (List.replicate shape.length SliceItem.full) = shape := by
  induction shape with
  | nil => rfl
  | cons a t ih =>
      simp only [List.length_cons, List.replicate, storageGetShape, List.zipWith_cons_cons]
      rw [show List.zipWith sliceExtent t (List.replicate t.length SliceItem.full) =
        storageGetShape t (List.replicate t.length SliceItem.full) from rfl, ih]
      rfl

/-- Claim C4: slicing a Variable whose declared dimension sizes agree with
its storage shape yields a Variable whose Dimension sizes are exactly the
sliced storage shape, with each dimension name and fixed flag preserved, so
the invariant `storage.shape == tuple(d.size for d in dimensions)` is
re-established; an all-dimensions full slice preserves the shape. -/
theorem getItem_spec (v : Variable) (s : List SliceItem)
    (hinv : v.dims.map Dimension.size = v.storageShape.map Int.ofNat)
    (hlen : s.length = v.dims.length) :
    ∃ w : Variable, v.getItem s = .ok w ∧
      w.dims.map Dimension.size = w.storageShape.map Int.ofNat ∧
      w.storageShape = storageGetShape v.storageShape s ∧
      w.dims.map Dimension.name = v.dims.map Dimension.name ∧
      w.dims.map Dimension.fixed = v.dims.map Dimension.fixed ∧
      (s = List.replicate v.dims.length SliceItem.full → w.shape = v.shape) := by
  have hdl : v.dims.length = v.storageShape.length := by
    have := congrArg List.length hinv
    simpa using this
  have hns : (storageGetShape v.storageShape s).length = v.dims.length := by
    simp [storageGetShape, List.length_zipWith]
    omega
  have hzl : v.dims.length = (storageGetShape v.storageShape s).length := hns.symm
  refine ⟨Variable.mk
      ((v.dims.zip (storageGetShape v.storageShape s)).map
        (fun p => Dimension.mk p.1.name (Int.ofNat p.2) p.1.fixed))
      (storageGetShape v.storageShape s), ?_, ?_, rfl, ?_, ?_, ?_⟩
  · rw [Variable.getItem]
    simp only [rebuildDims_sizes v.dims (storageGetShape v.storageShape s) hzl, if_pos rfl,
      if_true]
  · exact rebuildDims_sizes v.dims (storageGetShape v.storageShape s) hzl
  · exact rebuildDims_names v.dims (storageGetShape v.storageShape s) hzl
  · exact rebuildDims_fixed v.dims (storageGetShape v.storageShape s) hzl
  · intro hfull
    subst hfull
    show storageGetShape v.storageShape (List.replicate v.dims.length SliceItem.full) =
      v.storageShape
    rw [hdl]
    exact zipWith_sliceExtent_full v.storageShape

/-- Witness for C4: slicing a 5 x 3 Variable with integer indices, through
`getItem_spec` at that concrete input. -/
theorem getItem_spec_witness :
    ∃ w : Variable,
      (Variable.mk [Dimension.mk "x" 5 true, Dimension.mk "y" 3 true] [5, 3]).getItem
          [SliceItem.index 2, SliceItem.index 1] = .ok w ∧
      w.dims.map Dimension.size = w.storageShape.map Int.ofNat ∧
      w.storageShape = storageGetShape [5, 3] [SliceItem.index 2, SliceItem.index 1] ∧
      w.dims.map Dimension.name =
        [Dimension.mk "x" 5 true, Dimension.mk "y" 3 true].map Dimension.name ∧
      w.dims.map Dimension.fixed =
        [Dimension.mk "x" 5 true, Dimension.mk "y" 3 true].map Dimension.fixed ∧
      ([SliceItem.index 2, SliceItem.index 1] =
          List.replicate ([Dimension.mk "x" 5 true, Dimension.mk "y" 3 true] : List Dimension).length SliceItem.full →
        w.shape = (Variable.mk [Dimension.mk "x" 5 true, Dimension.mk "y" 3 true] [5, 3]).shape) :=
  getItem_spec (Variable.mk [Dimension.mk "x" 5 true, Dimension.mk "y" 3 true] [5, 3])
    [SliceItem.index 2, SliceItem.index 1] (by decide) rfl

/-! Embedding of the group-specification rewriting in `Field.groupby`
(field.py lines 676-699). -/

/-- Writing one group into the shared index array `s`:
`for dim in mapping: s[dim] = group[mapping.index(dim)]`. -/
def writeGroup (mapping : List Nat) (group : List ISpec) (s : List ISpec) :
    List ISpec :=
  mapping.foldl
    (fun acc dim => acc.set dim (group.getD (mapping.indexOf dim) ISpec.all)) s

/-- Simplification of one entry (field.py lines 688-691): a nonempty index
list whose span equals its length is collapsed to
`slice(first, last + 1)`; everything else is left alone.  The source would
raise an IndexError on an empty index list; such an entry is left unchanged
here and never arises for the claims below. -/
def simplifyDim : ISpec → ISpec
  | .ilist (a :: rest) =>
      if (a :: rest).getLast (by simp) - a + 1 = ((a :: rest).length : Int) then
        .islice a ((a :: rest).getLast (by simp) + 1)
      else .ilist (a :: rest)
  | sp => sp

/-- The simplification pass over the mapped dimensions:
`for dim in mapping: if ...: s[dim] = slice(...)`. -/
def simplifyGroup (mapping : List Nat) (s : List ISpec) : List ISpec :=
  mapping.foldl (fun acc dim => acc.set dim (simplifyDim (acc.getD dim ISpec.all))) s

/-- The group loop of `groupby`: the index array `s` starts as
`[slice(None)] * rank`, is shared across groups, and for each group the
mapped dimensions are overwritten, simplified, and a copy of `s` is stored
back as the finished specification of that group. -/
def groupbySpecs {κ : Type} (rank : Nat) (mapping : List Nat)
    (groups : List (κ × List ISpec)) : List (κ × List ISpec) :=
  (groups.foldl
    (fun st kg =>
      let s2 := simplifyGroup mapping (writeGroup mapping kg.2 st.2)
      (st.1 ++ [(kg.1, s2)], s2))
    ([], List.replicate rank ISpec.all)).1

theorem foldl_set_length {α : Type} (g : List α → Nat → α) (ms : List Nat)
    (s : List α) :
    (ms.foldl (fun acc d => acc.set d (g acc d)) s).length = s.length := by
  induction ms generalizing s with
  | nil => rfl
  | cons d rest ih =>
      rw [List.foldl_cons, ih]
      exact List.length_set ..

theorem foldl_set_getElem_not_mem {α : Type} (g : List α → Nat → α)
    (ms : List Nat) (s : List α) (j : Nat) (hj : j ∉ ms) :
    (ms.foldl (fun acc d => acc.set d (g acc d)) s)[j]? = s[j]? := by
  induction ms generalizing s with
  | nil => rfl
  | cons d rest ih =>
      rw [List.foldl_cons, ih _ (fun h => hj (List.mem_cons_of_mem _ h))]
      refine List.getElem?_set_ne ?_
      intro h
      exact hj (h ▸ List.mem_cons_self d rest)

theorem writeGroup_length (mapping : List Nat) (group : List ISpec)
    (s : List ISpec) : (writeGroup mapping group s).length = s.length :=
  foldl_set_length _ mapping s

theorem writeGroup_not_mem (mapping : List Nat) (group : List ISpec)
    (s : List ISpec) (j : Nat) (hj : j ∉ mapping) :
    (writeGroup mapping group s)[j]? = s[j]? :=
  foldl_set_getElem_not_mem _ mapping s j hj

theorem simplifyGroup_length (mapping : List Nat) (s : List ISpec) :
    (simplifyGroup mapping s).length = s.length :=
  foldl_set_length _ mapping s

theorem simplifyGroup_not_mem (mapping : List Nat) (s : List ISpec) (j : Nat)
    (hj : j ∉ mapping) : (simplifyGroup mapping s)[j]? = s[j]? :=
  foldl_set_getElem_not_mem _ mapping s j hj

/-- The invariant carried by the shared index array of `groupby`. -/
def SharedInv (rank : Nat) (mapping : List Nat) (s : List ISpec) : Prop :=
  s.length = rank ∧ ∀ j : Nat, j < rank → j ∉ mapping → s[j]? = some ISpec.all

theorem sharedInv_step (rank : Nat) (mapping : List Nat) (s : List ISpec)
    (group : List ISpec) (h : SharedInv rank mapping s) :
    SharedInv rank mapping (simplifyGroup mapping (writeGroup mapping group s)) := by
  constructor
  · rw [simplifyGroup_length, writeGroup_length]
    exact h.1
  · intro j hj hjm
    rw [simplifyGroup_not_mem _ _ _ hjm, writeGroup_not_mem _ _ _ _ hjm]
    exact h.2 j hj hjm

theorem groupbySpecs_fold_inv {κ : Type} (rank : Nat) (mapping : List Nat)
    (groups : List (κ × List ISpec)) :
    ∀ (acc : List (κ × List ISpec)) (s : List ISpec),
      SharedInv rank mapping s →
      (∀ p ∈ acc, SharedInv rank mapping p.2) →
      ∀ p ∈ (groups.foldl
        (fun st kg =>
          let s2 := simplifyGroup mapping (writeGroup mapping kg.2 st.2)
          (st.1 ++ [(kg.1, s2)], s2))
        (acc, s)).1, SharedInv rank mapping p.2 := by
  induction groups with
  | nil =>
      intro acc s _ hacc p hp
      exact hacc p hp
  | cons kg rest ih =>
      intro acc s hs hacc p hp
      rw [List.foldl_cons] at hp
      refine ih (acc ++ [(kg.1, simplifyGroup mapping (writeGroup mapping kg.2 s))])
        (simplifyGroup mapping (writeGroup mapping kg.2 s))
        (sharedInv_step rank mapping s kg.2 hs) ?_ p hp
      intro q hq
      rcases List.mem_append.mp hq with hq1 | hq2
      · exact hacc q hq1
      · rcases List.mem_singleton.mp hq2 with rfl
        exact sharedInv_step rank mapping s kg.2 hs

/-- Claim C7: every group specification produced by `groupby` has one entry
per data dimension (length = rank), with `slice(None)` in every dimension
slot not touched by the grouped coordinate mapping. -/
theorem groupbySpecs_inv {κ : Type} (rank : Nat) (mapping : List Nat)
    (groups : List (κ × List ISpec)) (p : κ × List ISpec)
    (hp : p ∈ groupbySpecs rank mapping groups) :
    p.2.length = rank ∧
      ∀ j : Nat, j < rank → j ∉ mapping → p.2[j]? = some ISpec.all := by
  have hinit : SharedInv rank mapping (List.replicate rank ISpec.all) := by
    constructor
    · exact List.length_replicate ..
    · intro j hj _
      rw [List.getElem?_replicate]
      simp [hj]
  exact groupbySpecs_fold_inv rank mapping groups [] (List.replicate rank ISpec.all)
    hinit (by intro q hq; cases hq) p hp

/-- Witness for C7: a three-dimensional field grouped on dimension 1 with a
contiguous index-list group; the stored specification keeps select-all on
dimensions 0 and 2. -/
theorem groupbySpecs_inv_witness :
    ([ISpec.all, ISpec.islice 0 3, ISpec.all] : List ISpec).length = 3 ∧
      ∀ j : Nat, j < 3 → j ∉ [1] →
        ([ISpec.all, ISpec.islice 0 3, ISpec.all] : List ISpec)[j]? = some ISpec.all :=
  groupbySpecs_inv 3 [1] [("g1", [ISpec.ilist [0, 1, 2]])]
    ("g1", [ISpec.all, ISpec.islice 0 3, ISpec.all]) (by decide)

/-! Embedding of `Field.geometries` (field.py lines 386-472).  Latitude and
longitude cell-center arrays are flat rational lists with a shape; the
shapely Point/Polygon collaborators are modelled by the `Geom` inductive. -/

/-- A geometry cell value: a point (with optional vertical coordinate) or a
closed polygon given by its vertex list of (longitude, latitude) pairs. -/
inductive Geom
  | point (lon lat : Rat) (vert : Option Rat)
  | poly (coords : List (Rat × Rat))
deriving DecidableEq

/-- Uninitialized array memory (`np.ndarray` without a fill): modelled as a
fixed arbitrary value; the claims never observe it. -/
def uninit : Rat := 0

/-- Cell-center access for a 2-D array with m columns stored flat in C
order. -/
def cellAt (m : Nat) (flat : List Rat) (i j : Nat) : Rat :=
  flat.getD (i * m + j) uninit

/-- First fill of a boundary array of shape (n+1, m+1) (field.py lines
447-448): interior boundaries are midpoints of the two diagonal cell
centers; every other entry still holds uninitialized memory. -/
def boundsStage1 (n m : Nat) (c : Nat → Nat → Rat) (i j : Nat) : Rat :=
  if 1 ≤ i ∧ i ≤ n - 1 ∧ 1 ≤ j ∧ j ≤ m - 1 then (c (i - 1) (j - 1) + c i j) / 2
  else uninit

/-- Second fill (field.py lines 452-453): the first and last boundary rows
are linear extrapolations of the two nearest interior rows, for the
interior column range only. -/
def boundsStage2 (n m : Nat) (c : Nat → Nat → Rat) (i j : Nat) : Rat :=
  if i = 0 ∧ 1 ≤ j ∧ j ≤ m - 1 then
    2 * boundsStage1 n m c 1 j - boundsStage1 n m c 2 j
  else if i = n ∧ 1 ≤ j ∧ j ≤ m - 1 then
    2 * boundsStage1 n m c (n - 1) j - boundsStage1 n m c (n - 2) j
  else boundsStage1 n m c i j

/-- Third fill (field.py lines 455-456): the first and last boundary
columns are linear extrapolations of the two nearest columns, over every
row of the already row-extrapolated array. -/
def boundsFinal (n m : Nat) (c : Nat → Nat → Rat) (i j : Nat) : Rat :=
  if j = 0 then 2 * boundsStage2 n m c i 1 - boundsStage2 n m c i 2
  else if j = m then 2 * boundsStage2 n m c i (m - 1) - boundsStage2 n m c i (m - 2)
  else boundsStage2 n m c i j

/-- Embedding of `Field.geometries`: `result = np.ndarray(shape, object)`
is an object array whose entries start out unset (`none`); the 1-D branch
fills it with points, the 2-D branch with closed cell quadrilaterals built
from the boundary arrays; for any other rank NO branch runs and the unset
array is cached and returned as is - the source has no failure path for the
rank.  The result is kept in `Except` because the 2-D branch does raise an
IndexError when a grid axis is shorter than 2 (the extrapolation reads
`var[2]` and `var[:,2]`). -/
def geometriesF (shape : List Nat) (lats lons : List Rat)
    (vert : Option (List Rat)) : Except String (List (Option Geom)) :=
  match shape with
  | [_] =>
      match vert with
      | some vs =>
          .ok ((lons.zip (lats.zip vs)).map
            (fun p => some (Geom.point p.1 p.2.1 (some p.2.2))))
      | none => .ok ((lons.zip lats).map (fun p => some (Geom.point p.1 p.2 none)))
  | [n, m] =>
      if n < 2 ∨ m < 2 then .error "index out of bounds"
      else
        .ok ((List.range (n * m)).map (fun idx =>
          let i := idx / m
          let j := idx % m
          let latB := boundsFinal n m (cellAt m lats)
          let lonB := boundsFinal n m (cellAt m lons)
          some (Geom.poly
            [(lonB i j, latB i j), (lonB (i + 1) j, latB (i + 1) j),
             (lonB (i + 1) (j + 1), latB (i + 1) (j + 1)),
             (lonB i (j + 1), latB i (j + 1)), (lonB i j, latB i j)])))
  | _ => .ok ((List.range (prodL shape)).map (fun _ => none))

/-- Counterexample for C9: on a rank-3 coordinate array the claim says
`geometries()` fails, but the call returns normally, yielding the cached
object array with no geometry ever assigned. -/
theorem geometries_rank3_returns :
    (geometriesF [2, 2, 2] (List.replicate 8 0) (List.replicate 8 0) none).isOk = true := by
  decide

/-- Claim C9 (amended): for a coordinate rank other than 1 or 2,
`geometries()` does not fail - neither branch of the rank dispatch runs,
and the uninitialized object array of the coordinate shape (every entry
unset) is cached and returned. -/
theorem geometries_other_rank (shape : List Nat) (lats lons : List Rat)
    (vert : Option (List Rat)) (h1 : shape.length ≠ 1) (h2 : shape.length ≠ 2) :
    geometriesF shape lats lons vert =
      .ok ((List.range (prodL shape)).map (fun _ => none)) := by
  match shape with
  | [] => rfl
  | [a] => exact absurd rfl h1
  | [a, b] => exact absurd rfl h2
  | a :: b :: c :: t => rfl

/-- Witness for C9 (amended): the rank-0 and rank-3 cases through
`geometries_other_rank`. -/
theorem geometries_other_rank_witness :
    geometriesF [2, 2, 2] (List.replicate 8 0) (List.replicate 8 0) none =
      .ok ((List.range (prodL [2, 2, 2])).map (fun _ => none)) :=
  geometries_other_rank [2, 2, 2] (List.replicate 8 0) (List.replicate 8 0) none
    (by decide) (by decide)

/-! Full embedding of the keyword loop of `Field.map` (field.py lines
196-267), for the silently-skip claims. -/

/-- A coordinate or ancillary mapping as the Field stores it: the
dimension-index tuple into the data Variable, the flat coordinate values
and the coordinate array shape. -/
structure CMapping where
  dims : List Nat
  vals : CoordVals
  shape : List Nat
deriving DecidableEq

/-- The Field as `map` consumes it: the data Variable rank and the
coordinate and ancillary dictionaries in iteration order. -/
structure FieldM where
  rank : Nat
  coords : List (String × CMapping)
  ancils : List (String × CMapping)
deriving DecidableEq

/-- The test `arg in self.coordinate_variables` together with the lookup. -/
def findCoord (f : FieldM) (n : String) : Option CMapping :=
  (f.coords.find? (fun p => p.1 = n)).map (fun p => p.2)

/-- The test `arg in self.ancil_variables` together with the lookup. -/
def findAncil (f : FieldM) (n : String) : Option CMapping :=
  (f.ancils.find? (fun p => p.1 = n)).map (fun p => p.2)

/-- Dictionary lookup `kwargs[name]` (a kwargs dict has unique keys; the
first match models it). -/
def lookupKw (kwargs : List (String × PyVal)) (n : String) : Option PyVal :=
  (kwargs.find? (fun p => p.1 = n)).map (fun p => p.2)

/-- One entry of the result index list of `map`: `slice(None)` or a
resolved integer index. -/
inductive MEntry
  | all
  | idx (i : Nat)
deriving DecidableEq

/-- Minimum value of a numeric array (`np.min`; 0 for the empty array,
which numpy rejects - unreachable below). -/
def listMin : List Int → Int
  | [] => 0
  | x :: rest => rest.foldl min x

/-- Embedding of `np.argmin`: index of the first occurrence of the minimum
value. -/
def argmin : List Int → Nat
  | [] => 0
  | x :: rest => if rest ≠ [] ∧ listMin rest < x then argmin rest + 1 else 0

/-- The complementary-argument test of `map` (field.py line 228): the other
coordinate name must be a kwargs key, differ from the argument being
processed, and share the same dimension tuple. -/
def compKw (kwargs : List (String × PyVal)) (itemName : String)
    (dims : List Nat) (p : String × CMapping) : Bool :=
  (lookupKw kwargs p.1).isSome && decide (p.1 ≠ itemName) && decide (p.2.dims = dims)

/-- The distance array accumulated over the collected arguments (field.py
lines 243-254): it starts as `np.zeros(shape)` flattened and each argument
is combined by `distStep` with its supplied value `kwargs[name]`.  Every
collected name is a kwargs key, so the `none` branch is unreachable. -/
def distanceFor (kwargs : List (String × PyVal))
    (args : List (String × CMapping)) (shape : List Nat) : List Int :=
  args.foldl
    (fun d p =>
      match lookupKw kwargs p.1 with
      | some v => distStep d (p.2.vals, v)
      | none => d)
    (List.replicate (prodL shape) 0)

/-- The tail of one processed argument group (field.py lines 256-265): the
distance minimum is located, unravelled over the coordinate shape, the
resolved indices are written into the result slots given by the dimension
tuple, and all collected names are marked done.  `np.sqrt` is strictly
monotone on the non-negative distances, so taking the argmin before the
square root gives the same cell; the square root is therefore omitted. -/
def mapFinish (kwargs : List (String × PyVal))
    (st : List MEntry × List String) (args : List (String × CMapping))
    (m : CMapping) : List MEntry × List String :=
  let dist := distanceFor kwargs args m.shape
  let idxs := unravel m.shape (argmin dist)
  ((m.dims.zip idxs).foldl (fun r p => r.set p.1 (MEntry.idx p.2)) st.1,
   st.2 ++ args.map (fun p => p.1))

/-- One iteration of the keyword loop of `map` (field.py lines 204-265):
`_method` is skipped, already-processed names are skipped, a coordinate
argument collects every other kwargs coordinate with the same dimension
tuple, an ancillary argument stands alone, and an unrecognized name is
silently skipped. -/
def mapStep (f : FieldM) (kwargs : List (String × PyVal))
    (st : List MEntry × List String) (item : String × PyVal) :
    List MEntry × List String :=
  if item.1 = "_method" then st
  else if item.1 ∈ st.2 then st
  else
    match findCoord f item.1 with
    | some m =>
        mapFinish kwargs st
          ((item.1, m) :: f.coords.filter (compKw kwargs item.1 m.dims)) m
    | none =>
        match findAncil f item.1 with
        | some m => mapFinish kwargs st [(item.1, m)] m
        | none => st

/-- The result of `Field.map`: the per-data-dimension index list, starting
from `[slice(None)] * rank`. -/
def mapResult (f : FieldM) (kwargs : List (String × PyVal)) : List MEntry :=
  (kwargs.foldl (mapStep f kwargs) (List.replicate f.rank MEntry.all, [])).1

theorem foldl_fn_congr {α σ : Type} (g1 g2 : σ → α → σ) (l : List α)
    (h : ∀ (s : σ) (a : α), a ∈ l → g1 s a = g2 s a) :
    ∀ s : σ, l.foldl g1 s = l.foldl g2 s := by
  induction l with
  | nil => intro s; rfl
  | cons x xs ih =>
      intro s
      rw [List.foldl_cons, List.foldl_cons, h s x (List.mem_cons_self x xs)]
      exact ih (fun s a ha => h s a (List.mem_cons_of_mem x ha)) _

theorem lookupKw_insert_ne (pre post : List (String × PyVal)) (n : String)
    (v : PyVal) (name : String) (hne : name ≠ n) :
    lookupKw (pre ++ (n, v) :: post) name = lookupKw (pre ++ post) name := by
  unfold lookupKw
  induction pre with
  | nil =>
      simp only [List.nil_append]
      rw [List.find?_cons_of_neg]
      simp only [decide_eq_true_eq]
      exact fun h => hne h.symm
  | cons q qs ih =>
      simp only [List.cons_append]
      by_cases hq : q.1 = name
      · rw [List.find?_cons_of_pos _ (by simpa using hq),
          List.find?_cons_of_pos _ (by simpa using hq)]
      · rw [List.find?_cons_of_neg _ (by simpa using hq),
          List.find?_cons_of_neg _ (by simpa using hq)]
        exact ih

theorem findCoord_eq_none_names (f : FieldM) (n : String)
    (h : findCoord f n = none) : ∀ p ∈ f.coords, p.1 ≠ n := by
  intro p hp
  unfold findCoord at h
  rw [Option.map_eq_none'] at h
  have := List.find?_eq_none.mp h p hp
  simpa using this

theorem findAncil_eq_none_names (f : FieldM) (n : String)
    (h : findAncil f n = none) : ∀ p ∈ f.ancils, p.1 ≠ n := by
  intro p hp
  unfold findAncil at h
  rw [Option.map_eq_none'] at h
  have := List.find?_eq_none.mp h p hp
  simpa using this

theorem mapStep_skip (f : FieldM) (kwargs : List (String × PyVal))
    (st : List MEntry × List String) (item : String × PyVal)
    (h : item.1 = "_method" ∨ (findCoord f item.1 = none ∧ findAncil f item.1 = none)) :
    mapStep f kwargs st item = st := by
  rcases h with h | ⟨hc, ha⟩
  · simp [mapStep, h]
  · by_cases hm : item.1 = "_method"
    · simp [mapStep, hm]
    · by_cases hd : item.1 ∈ st.2
      · simp [mapStep, hm, hd]
      · simp [mapStep, hm, hd, hc, ha]

theorem distanceFor_congr (k1 k2 : List (String × PyVal))
    (args : List (String × CMapping)) (shape : List Nat)
    (h : ∀ p ∈ args, lookupKw k1 p.1 = lookupKw k2 p.1) :
    distanceFor k1 args shape = distanceFor k2 args shape := by
  unfold distanceFor
  exact foldl_fn_congr _ _ args (fun d p hp => by rw [h p hp]) _

theorem mapFinish_congr (k1 k2 : List (String × PyVal))
    (st : List MEntry × List String) (args : List (String × CMapping))
    (m : CMapping) (h : ∀ p ∈ args, lookupKw k1 p.1 = lookupKw k2 p.1) :
    mapFinish k1 st args m = mapFinish k2 st args m := by
  unfold mapFinish
  rw [distanceFor_congr k1 k2 args m.shape h]

theorem mapStep_congr (f : FieldM) (k1 k2 : List (String × PyVal))
    (st : List MEntry × List String) (item : String × PyVal)
    (h1 : lookupKw k1 item.1 = lookupKw k2 item.1)
    (h2 : ∀ p ∈ f.coords, lookupKw k1 p.1 = lookupKw k2 p.1) :
    mapStep f k1 st item = mapStep f k2 st item := by
  unfold mapStep
  by_cases hm : item.1 = "_method"
  · simp [hm]
  · by_cases hd : item.1 ∈ st.2
    · simp [hm, hd]
    · simp only [hm, hd, if_false, ite_false]
      cases hc : findCoord f item.1 with
      | some m =>
          show mapFinish k1 st ((item.1, m) :: f.coords.filter (compKw k1 item.1 m.dims)) m =
            mapFinish k2 st ((item.1, m) :: f.coords.filter (compKw k2 item.1 m.dims)) m
          have hfil : f.coords.filter (compKw k1 item.1 m.dims) =
              f.coords.filter (compKw k2 item.1 m.dims) := by
            refine List.filter_congr ?_
            intro p hp
            unfold compKw
            rw [h2 p hp]
          rw [hfil]
          refine mapFinish_congr k1 k2 st _ m ?_
          intro p hp
          rcases List.mem_cons.mp hp with rfl | hp2
          · exact h1
          · exact h2 p (List.mem_of_mem_filter (hfil ▸ hp2))
      | none =>
          cases ha : findAncil f item.1 with
          | some m =>
              show mapFinish k1 st [(item.1, m)] m = mapFinish k2 st [(item.1, m)] m
              refine mapFinish_congr k1 k2 st _ m ?_
              intro p hp
              rcases List.mem_singleton.mp hp with rfl
              exact h1
          | none => rfl

theorem subsetStep_skip (f : FieldS) (ms : List (List Nat × List Bool))
    (item : String × List Int)
    (h : findCoordS f item.1 = none ∧ findAncilS f item.1 = none) :
    subsetStep f ms item = ms := by
  simp [subsetStep, h.1, h.2]

/-- Claim C8: `map` and `subset` never fail on an unrecognized keyword - a
keyword naming neither a coordinate nor an ancillary variable is silently
skipped and the result equals the result for the same call without that
keyword; `map` additionally ignores the reserved `_method` keyword (which,
per the fixed coordinate role vocabulary, never names a coordinate). -/
theorem map_subset_skip_unrecognized (f : FieldM) (fs : FieldS)
    (pre post : List (String × PyVal)) (spre spost : List (String × List Int))
    (n : String) (v : PyVal) (sv : List Int)
    (hmap : (n = "_method" ∧ findCoord f n = none) ∨
      (findCoord f n = none ∧ findAncil f n = none))
    (hsub : findCoordS fs n = none ∧ findAncilS fs n = none) :
    mapResult f (pre ++ (n, v) :: post) = mapResult f (pre ++ post) ∧
    subsetRun fs (spre ++ (n, sv) :: spost) = subsetRun fs (spre ++ spost) := by
  have hcnone : findCoord f n = none := by
    rcases hmap with ⟨_, h⟩ | ⟨h, _⟩ <;> exact h
  have hskip : n = "_method" ∨ (findCoord f n = none ∧ findAncil f n = none) := by
    rcases hmap with ⟨h, _⟩ | h
    · exact Or.inl h
    · exact Or.inr h
  constructor
  · unfold mapResult
    have step1 : (pre ++ (n, v) :: post).foldl (mapStep f (pre ++ (n, v) :: post))
        (List.replicate f.rank MEntry.all, []) =
        (pre ++ post).foldl (mapStep f (pre ++ (n, v) :: post))
        (List.replicate f.rank MEntry.all, []) := by
      rw [List.foldl_append, List.foldl_cons,
        mapStep_skip f (pre ++ (n, v) :: post) _ (n, v) hskip, ← List.foldl_append]
    rw [step1]
    have step2 : (pre ++ post).foldl (mapStep f (pre ++ (n, v) :: post))
        (List.replicate f.rank MEntry.all, []) =
        (pre ++ post).foldl (mapStep f (pre ++ post))
        (List.replicate f.rank MEntry.all, []) := by
      refine foldl_fn_congr _ _ _ ?_ _
      intro s item _
      by_cases hitem : item.1 = "_method" ∨
        (findCoord f item.1 = none ∧ findAncil f item.1 = none)
      · rw [mapStep_skip f _ s item hitem, mapStep_skip f _ s item hitem]
      · have hne : item.1 ≠ n := by
          intro heq
          rcases hmap with ⟨hm, _⟩ | ⟨hc, ha⟩
          · exact hitem (Or.inl (heq.trans hm))
          · exact hitem (Or.inr ⟨heq ▸ hc, heq ▸ ha⟩)
        refine mapStep_congr f _ _ s item ?_ ?_
        · exact lookupKw_insert_ne pre post n v item.1 hne
        · intro p hp
          exact lookupKw_insert_ne pre post n v p.1 (findCoord_eq_none_names f n hcnone p hp)
    rw [step2]
  · unfold subsetRun subsetMappings
    rw [List.foldl_append, List.foldl_cons, subsetStep_skip fs _ (n, sv) hsub,
      ← List.foldl_append]

/-- A small station Field for the C8 witness. -/
def witnessFieldS : FieldS := FieldS.mk [3] [("latitude", ([0], [1, 2, 3]))] []

/-- A small gridded Field for the C8 witness. -/
def witnessFieldM : FieldM :=
  FieldM.mk 3
    [("latitude", CMapping.mk [1] (.nums [-35, -34]) [2]),
     ("longitude", CMapping.mk [2] (.nums [18, 19]) [2])]
    [("id", CMapping.mk [1] (.strs ["a", "b"]) [2])]

/-- Witness for C8: an unrecognized keyword `bogus` and the reserved
keyword `_method` are dropped from a `map` call, and `bogus` is dropped
from a `subset` call, through `map_subset_skip_unrecognized` at concrete
inputs. -/
theorem map_subset_skip_unrecognized_witness :
    (mapResult witnessFieldM [("bogus", PyVal.num 7), ("latitude", PyVal.num (-34))] =
      mapResult witnessFieldM [("latitude", PyVal.num (-34))] ∧
     subsetRun witnessFieldS [("bogus", [1]), ("latitude", [1, 2])] =
      subsetRun witnessFieldS [("latitude", [1, 2])]) ∧
    mapResult witnessFieldM
        [("latitude", PyVal.num (-34)), ("_method", PyVal.str "nearest_neighbour")] =
      mapResult witnessFieldM [("latitude", PyVal.num (-34))] := by
  constructor
  · exact map_subset_skip_unrecognized witnessFieldM witnessFieldS
      [] [("latitude", PyVal.num (-34))] [] [("latitude", [1, 2])]
      "bogus" (PyVal.num 7) [1]
      (Or.inr ⟨by decide, by decide⟩) ⟨by decide, by decide⟩
  · exact (map_subset_skip_unrecognized witnessFieldM witnessFieldS
      [("latitude", PyVal.num (-34))] [] [] []
      "_method" (PyVal.str "nearest_neighbour") []
      (Or.inl ⟨rfl, by decide⟩) ⟨by decide, by decide⟩).1

end DDice
